import Mathlib

/-!
Verification development for the Trabajo-IA access layer
(`trabajo_ia_server/utils/fred_client.py`, `utils/cache.py`,
`utils/rate_limiter.py`, `workflows/layers/fetch_data.py`).

The Python source is shallowly embedded:

* Python `dict`s become association lists (`alUpdate` / `alLookup`) with
  dict update semantics (replace in place, else append).
* Wall-clock instants and TTLs are modelled as exact integers (`Int`):
  the source uses float seconds, but every property at stake is an
  order/arithmetic property that does not depend on rounding, and exact
  integer ticks keep every definition kernel-computable.
* Fallible code returns `Except`/`Option`; the outside world (HTTP
  responses, the FRED series-id table consulted by the fetch layer) is
  passed in explicitly as data.
-/

namespace TrabajoIA

/-- Python `max(a, b)` on numbers (returns `b` iff `a <= b`, like
`max(0.0, x)` in the source; on numbers the choice between equal
arguments is unobservable). -/
def pymax (a b : Int) : Int := if a ≤ b then b else a

/-- Association-list lookup, modelling Python `dict.get`. -/
def alLookup {β : Type} (l : List (String × β)) (k : String) : Option β :=
  match l with
  | [] => none
  | (k', v) :: rest => if k' = k then some v else alLookup rest k

/-- Association-list update, modelling Python `dict[k] = v`
(replace the existing binding in place, else append). -/
def alUpdate {β : Type} (l : List (String × β)) (k : String) (v : β) :
    List (String × β) :=
  match l with
  | [] => [(k, v)]
  | (k', v') :: rest =>
    if k' = k then (k, v) :: rest else (k', v') :: alUpdate rest k v

/-- Association-list removal, modelling Python `dict.pop(k, None)`. -/
def alErase {β : Type} (l : List (String × β)) (k : String) :
    List (String × β) :=
  match l with
  | [] => []
  | (k', v') :: rest =>
    if k' = k then rest else (k', v') :: alErase rest k

theorem alLookup_alUpdate {β : Type} (l : List (String × β)) (k : String) (v : β) :
    alLookup (alUpdate l k v) k = some v := by
  induction l with
  | nil => simp [alUpdate, alLookup]
  | cons hd tl ih =>
    obtain ⟨k', v'⟩ := hd
    by_cases h : k' = k
    · simp [alUpdate, alLookup, h]
    · simp [alUpdate, alLookup, h, ih]

/-! ## `FredClient._build_cache_key` (utils/fred_client.py, lines 101-114)

A parameter value, after the caller has built the query dict.  The source
iterates `params.items()`, skips `None` values, flattens
`list`/`tuple`/`set` values element by element through `str(...)`, and
turns scalars into `str(value)`; we model values after `str`
conversion. -/
inductive PValue where
  | null : PValue
  | atom : String → PValue
  | multi : List String → PValue
deriving DecidableEq

/-- The `(key, str(item))` pairs a single `params` entry contributes to
`normalized_items` (the loop body of `_build_cache_key`). -/
def itemsOf : String × PValue → List (String × String)
  | (_, .null) => []
  | (k, .atom s) => [(k, s)]
  | (k, .multi xs) => xs.map (fun s => (k, s))

/-- The `normalized_items` list built by `_build_cache_key` before
sorting. -/
def normalizedItems (params : List (String × PValue)) : List (String × String) :=
  params.flatMap itemsOf

/-- Strict lexicographic comparison of character lists by code points:
exactly Python's `<` on `str` (restricted to the two lists' characters).
Written as an executable Bool function so that the kernel can evaluate
concrete cache keys. -/
def charListLt : List Char → List Char → Bool
  | [], [] => false
  | [], _ :: _ => true
  | _ :: _, [] => false
  | a :: as, b :: bs =>
    if a < b then true
    else if b < a then false
    else charListLt as bs

/-- Python `s1 < s2` on strings (code-point lexicographic order). -/
def strLt (a b : String) : Bool := charListLt a.data b.data

theorem charListLt_cons_iff {a b : Char} {t u : List Char} :
    charListLt (a :: t) (b :: u) = true
      ↔ a < b ∨ (a = b ∧ charListLt t u = true) := by
  rcases lt_trichotomy a b with h | h | h
  · rw [charListLt, if_pos h]
    simp [h]
  · subst h
    rw [charListLt, if_neg (lt_irrefl a), if_neg (lt_irrefl a)]
    simp
  · rw [charListLt, if_neg (asymm h), if_pos h]
    constructor
    · intro hc
      exact Bool.noConfusion hc
    · rintro (hc | ⟨hc, _⟩)
      · exact absurd hc (asymm h)
      · exact absurd hc (ne_of_lt h).symm

theorem charListLt_trans : ∀ {l1 l2 l3 : List Char},
    charListLt l1 l2 = true → charListLt l2 l3 = true → charListLt l1 l3 = true := by
  intro l1
  induction l1 with
  | nil =>
    intro l2 l3 h12 h23
    cases l3 with
    | nil =>
      cases l2 with
      | nil => exact h12
      | cons b u => exact absurd h23 (by simp [charListLt])
    | cons c v => rfl
  | cons a t ih =>
    intro l2 l3 h12 h23
    cases l2 with
    | nil => exact absurd h12 (by simp [charListLt])
    | cons b u =>
      cases l3 with
      | nil => exact absurd h23 (by simp [charListLt])
      | cons c v =>
        rcases charListLt_cons_iff.1 h12 with hab | ⟨hab, ht⟩ <;>
          rcases charListLt_cons_iff.1 h23 with hbc | ⟨hbc, hu⟩
        · exact charListLt_cons_iff.2 (Or.inl (lt_trans hab hbc))
        · exact charListLt_cons_iff.2 (Or.inl (hbc ▸ hab))
        · exact charListLt_cons_iff.2 (Or.inl (hab ▸ hbc))
        · exact charListLt_cons_iff.2 (Or.inr ⟨hab.trans hbc, ih ht hu⟩)

theorem charListLt_conn : ∀ (l1 l2 : List Char),
    charListLt l1 l2 = false → charListLt l2 l1 = false → l1 = l2 := by
  intro l1
  induction l1 with
  | nil =>
    intro l2 h12 _
    cases l2 with
    | nil => rfl
    | cons b u => exact absurd h12 (by simp [charListLt])
  | cons a t ih =>
    intro l2 h12 h21
    cases l2 with
    | nil => exact absurd h21 (by simp [charListLt])
    | cons b u =>
      have h12' : ¬(a < b ∨ (a = b ∧ charListLt t u = true)) := by
        intro hc
        exact absurd (charListLt_cons_iff.2 hc) (by simp [h12])
      have h21' : ¬(b < a ∨ (b = a ∧ charListLt u t = true)) := by
        intro hc
        exact absurd (charListLt_cons_iff.2 hc) (by simp [h21])
      have hab : a = b := by
        rcases lt_trichotomy a b with h | h | h
        · exact absurd (Or.inl h) h12'
        · exact h
        · exact absurd (Or.inl h) h21'
      subst hab
      have htu : charListLt t u = false := by
        cases hx : charListLt t u with
        | false => rfl
        | true => exact absurd (Or.inr ⟨rfl, hx⟩) h12'
      have hut : charListLt u t = false := by
        cases hx : charListLt u t with
        | false => rfl
        | true => exact absurd (Or.inr ⟨rfl, hx⟩) h21'
      rw [ih u htu hut]

theorem strLt_ext {a b : String} (h1 : strLt a b = false) (h2 : strLt b a = false) :
    a = b := by
  obtain ⟨da⟩ := a
  obtain ⟨db⟩ := b
  have h := charListLt_conn da db h1 h2
  exact congrArg String.mk h

/-- Python tuple ordering on `(key, value)` pairs of strings, as used by
`normalized_items.sort()` (Python compares strings by code points). -/
def pairLe (a b : String × String) : Prop :=
  strLt a.1 b.1 = true ∨ (a.1 = b.1 ∧ (strLt a.2 b.2 = true ∨ a.2 = b.2))

instance : DecidableRel pairLe := fun p q =>
  inferInstanceAs
    (Decidable (strLt p.1 q.1 = true ∨ (p.1 = q.1 ∧ (strLt p.2 q.2 = true ∨ p.2 = q.2))))

instance : IsTrans (String × String) pairLe where
  trans a b c hab hbc := by
    rcases hab with h1 | ⟨h1, h1'⟩ <;> rcases hbc with h2 | ⟨h2, h2'⟩
    · exact Or.inl (charListLt_trans h1 h2)
    · exact Or.inl (h2 ▸ h1)
    · exact Or.inl (h1 ▸ h2)
    · refine Or.inr ⟨h1.trans h2, ?_⟩
      rcases h1' with hv | hv <;> rcases h2' with hw | hw
      · exact Or.inl (charListLt_trans hv hw)
      · exact Or.inl (hw ▸ hv)
      · exact Or.inl (hv ▸ hw)
      · exact Or.inr (hv.trans hw)

instance : IsTotal (String × String) pairLe where
  total a b := by
    cases hk : strLt a.1 b.1 with
    | true => exact Or.inl (Or.inl hk)
    | false =>
      cases hk' : strLt b.1 a.1 with
      | true => exact Or.inr (Or.inl hk')
      | false =>
        have he : a.1 = b.1 := strLt_ext hk hk'
        cases hv : strLt a.2 b.2 with
        | true => exact Or.inl (Or.inr ⟨he, Or.inl hv⟩)
        | false =>
          cases hv' : strLt b.2 a.2 with
          | true => exact Or.inr (Or.inr ⟨he.symm, Or.inl hv'⟩)
          | false => exact Or.inl (Or.inr ⟨he, Or.inr (strLt_ext hv hv')⟩)

theorem strLt_irrefl (a : String) : strLt a a = false := by
  obtain ⟨da⟩ := a
  show charListLt da da = false
  induction da with
  | nil => rfl
  | cons c t ih => simp [charListLt, lt_irrefl, ih]

theorem strLt_asymm {a b : String} (h1 : strLt a b = true) (h2 : strLt b a = true) :
    False := by
  have h3 : strLt a a = true := charListLt_trans h1 h2
  rw [strLt_irrefl] at h3
  exact Bool.noConfusion h3

instance : IsAntisymm (String × String) pairLe where
  antisymm a b hab hba := by
    obtain ⟨a1, a2⟩ := a
    obtain ⟨b1, b2⟩ := b
    rcases hab with h1 | ⟨h1, h1'⟩ <;> rcases hba with h2 | ⟨h2, h2'⟩
    · exact (strLt_asymm h1 h2).elim
    · rw [h2] at h1
      rw [strLt_irrefl] at h1
      exact Bool.noConfusion h1
    · rw [h1] at h2
      rw [strLt_irrefl] at h2
      exact Bool.noConfusion h2
    · simp only [Prod.mk.injEq]
      refine ⟨h1, ?_⟩
      rcases h1' with hv | hv <;> rcases h2' with hw | hw
      · exact (strLt_asymm hv hw).elim
      · exact hw.symm
      · exact hv
      · exact hv

/-- `normalized_items.sort()`: Python's stable sort under tuple order
(any correct stable sort produces the same list; equal pairs are
identical, so stability is not even observable here). -/
def sortPairs (l : List (String × String)) : List (String × String) :=
  List.insertionSort pairLe l

/-- Uppercase hex digit, as `urllib` produces (`%XX` uppercase). -/
def hexDigit (n : Nat) : Char :=
  if n < 10 then Char.ofNat (48 + n) else Char.ofNat (55 + n)

/-- UTF-8 bytes of one character (what Python encodes before
percent-escaping). -/
def utf8Bytes (c : Char) : List Nat :=
  let n := c.toNat
  if n < 128 then [n]
  else if n < 2048 then [192 + n / 64, 128 + n % 64]
  else if n < 65536 then [224 + n / 4096, 128 + n / 64 % 64, 128 + n % 64]
  else [240 + n / 262144, 128 + n / 4096 % 64, 128 + n / 64 % 64, 128 + n % 64]

/-- `%XX` escape of one byte. -/
def percentByte (b : Nat) : String :=
  String.mk ['%', hexDigit (b / 16), hexDigit (b % 16)]

/-- `urllib.parse.quote_plus` on one character: ASCII alphanumerics and
`_.-~` pass through, space becomes `+`, everything else is
percent-escaped byte by byte. -/
def quotePlusChar (c : Char) : String :=
  if c = ' ' then "+"
  else if c.isAlphanum ∨ c = '_' ∨ c = '.' ∨ c = '-' ∨ c = '~' then String.mk [c]
  else String.join ((utf8Bytes c).map percentByte)

/-- `urllib.parse.quote_plus` on a string. -/
def quotePlus (s : String) : String :=
  String.join (s.data.map quotePlusChar)

/-- `urllib.parse.urlencode` on a list of string pairs. -/
def urlencode (items : List (String × String)) : String :=
  String.intercalate "&" (items.map fun kv => quotePlus kv.1 ++ "=" ++ quotePlus kv.2)

/-- `FredClient._build_cache_key` (utils/fred_client.py lines 101-114):
skip `None` values, flatten multi-values, sort the normalized pairs,
url-encode, and append as a query string when non-empty. -/
def build_cache_key (url : String) (params : List (String × PValue)) : String :=
  let query := urlencode (sortPairs (normalizedItems params))
  if query = "" then url else url ++ "?" ++ query

theorem normalizedItems_append (l₁ l₂ : List (String × PValue)) :
    normalizedItems (l₁ ++ l₂) = normalizedItems l₁ ++ normalizedItems l₂ := by
  simp [normalizedItems]

/-- Claim C10: a parameter whose value is `None` is excluded from the
canonical cache key — inserting `k ↦ None` anywhere into the parameter
map produces the same key as leaving `k` out entirely. -/
theorem build_cache_key_ignores_none (url : String)
    (pre post : List (String × PValue)) (k : String) :
    build_cache_key url (pre ++ (k, PValue.null) :: post)
      = build_cache_key url (pre ++ post) := by
  have h : normalizedItems (pre ++ (k, PValue.null) :: post)
      = normalizedItems (pre ++ post) := by
    simp [normalizedItems, itemsOf]
  rw [build_cache_key, build_cache_key, h]

/-- Claim C1, counterexample: the source never excludes the designated
sensitive field — a parameter map carrying `api_key` produces a cache
key that literally contains the credential, and differs from the key of
the same map without credentials. -/
theorem build_cache_key_keeps_api_key :
    build_cache_key "https://api.stlouisfed.org/fred/series/observations"
        [("series_id", PValue.atom "GDPA"), ("api_key", PValue.atom "SECRET123")]
      = "https://api.stlouisfed.org/fred/series/observations?api_key=SECRET123&series_id=GDPA"
    ∧ build_cache_key "https://api.stlouisfed.org/fred/series/observations"
        [("series_id", PValue.atom "GDPA"), ("api_key", PValue.atom "SECRET123")]
      ≠ build_cache_key "https://api.stlouisfed.org/fred/series/observations"
        [("series_id", PValue.atom "GDPA")] := by
  constructor
  · decide
  · decide

/-- Claim C1, amended: the cache key is invariant under reordering of
the parameter map (the sorted normalization makes any two permutations
of the same key/value pairs collide), but a sensitive field such as
`api_key` is normalized like every other parameter, so its value
participates in the key. -/
theorem build_cache_key_perm (url : String) (p1 p2 : List (String × PValue))
    (h : p1.Perm p2) :
    build_cache_key url p1 = build_cache_key url p2 := by
  have hperm : (normalizedItems p1).Perm (normalizedItems p2) :=
    h.flatMap_right itemsOf
  have hsorted : sortPairs (normalizedItems p1) = sortPairs (normalizedItems p2) :=
    List.eq_of_perm_of_sorted
      ((List.perm_insertionSort pairLe _).trans
        (hperm.trans (List.perm_insertionSort pairLe _).symm))
      (List.sorted_insertionSort pairLe _)
      (List.sorted_insertionSort pairLe _)
  rw [build_cache_key, build_cache_key, hsorted]

/-- Witness for `build_cache_key_perm` at a concrete permutation. -/
theorem build_cache_key_perm_witness :
    build_cache_key "https://example.org/fred"
        [("a", PValue.atom "1"), ("b", PValue.atom "2")]
      = build_cache_key "https://example.org/fred"
        [("b", PValue.atom "2"), ("a", PValue.atom "1")] :=
  build_cache_key_perm "https://example.org/fred" _ _ (by decide)

/-! ## Cache backends and manager (utils/cache.py)

Time is the integer tick clock described in the header; `None` TTLs are
`Option.none`. -/

/-- ASCII lower-casing of one character (`str.lower` restricted to the
ASCII namespaces the repository uses). -/
def lowerChar (c : Char) : Char :=
  if 'A' ≤ c ∧ c ≤ 'Z' then Char.ofNat (c.toNat + 32) else c

/-- Python `str.lower()` (ASCII fragment). -/
def pyLower (s : String) : String := String.mk (s.data.map lowerChar)

/-- Python `str.strip()`: drop whitespace from both ends. -/
def pyStrip (s : String) : String :=
  String.mk (((s.data.dropWhile Char.isWhitespace).reverse.dropWhile
    Char.isWhitespace).reverse)

/-- The namespace normalization `namespace.strip().lower()` used
throughout `CacheManager`. -/
def normNs (ns : String) : String := pyLower (pyStrip ns)

/-- `CacheEntry` (utils/cache.py lines 34-39). -/
structure CacheEntry (α : Type) where
  value : α
  expires_at : Option Int
deriving DecidableEq

/-- `InMemoryCache._is_expired` (line 90): expired iff an expiry is set
and it is `<= now`. -/
def is_expired {α : Type} (e : CacheEntry α) (now : Int) : Bool :=
  match e.expires_at with
  | some t => decide (t ≤ now)
  | none => false

/-- `InMemoryCache` (utils/cache.py lines 79-124): `default_ttl` plus the
backing store. -/
structure InMemoryCache (α : Type) where
  default_ttl : Option Int
  store : List (String × CacheEntry α)
deriving DecidableEq

/-- `InMemoryCache.get` (lines 93-101): absent key or expired entry gives
the default (`none`); an expired entry is popped on read. -/
def InMemoryCache.get {α : Type} (c : InMemoryCache α) (now : Int) (key : String) :
    Option α × InMemoryCache α :=
  match alLookup c.store key with
  | none => (none, c)
  | some entry =>
    if is_expired entry now then (none, { c with store := alErase c.store key })
    else (some entry.value, c)

/-- `InMemoryCache.set` (lines 103-111): the effective TTL is the explicit
`ttl` if given, else `default_ttl`; a non-`None`, non-positive effective
TTL is a store no-op; a `None` effective TTL stores without expiry. -/
def InMemoryCache.set {α : Type} (c : InMemoryCache α) (now : Int) (key : String)
    (v : α) (ttl : Option Int) : InMemoryCache α :=
  let effective_ttl := match ttl with
    | none => c.default_ttl
    | some t => some t
  match effective_ttl with
  | some t =>
    if t ≤ 0 then c
    else { c with store := alUpdate c.store key ⟨v, some (now + t)⟩ }
  | none => { c with store := alUpdate c.store key ⟨v, none⟩ }

/-- `RedisCacheBackend` (utils/cache.py lines 159-213); `pref` is the
configured key prefix and `store` models the remote Redis keyspace (value
plus the server-side absolute expiry, since Redis drops expired keys on
read). The pickle round-trip is modelled as the identity. -/
structure RedisCacheBackend (α : Type) where
  default_ttl : Option Int
  pref : String
  store : List (String × CacheEntry α)
deriving DecidableEq

/-- `RedisCacheBackend._namespaced` (lines 178-181). -/
def RedisCacheBackend.namespacedKey {α : Type} (r : RedisCacheBackend α)
    (key : String) : String :=
  if r.pref = "" then key else r.pref ++ ":" ++ key

/-- `RedisCacheBackend.set` (lines 195-201): `SET ... EX ttl` only when
`ttl` is not `None` and positive, else a plain `SET` with no expiry. -/
def RedisCacheBackend.set {α : Type} (r : RedisCacheBackend α) (now : Int)
    (key : String) (v : α) (ttl : Option Int) : RedisCacheBackend α :=
  let nk := r.namespacedKey key
  match ttl with
  | some t =>
    if 0 < t then { r with store := alUpdate r.store nk ⟨v, some (now + t)⟩ }
    else { r with store := alUpdate r.store nk ⟨v, none⟩ }
  | none => { r with store := alUpdate r.store nk ⟨v, none⟩ }

/-- `RedisCacheBackend.get` (lines 183-193); the server returns nil for
missing or expired keys, the deserialization failure branch is
unreachable under the identity pickle model. -/
def RedisCacheBackend.get {α : Type} (r : RedisCacheBackend α) (now : Int)
    (key : String) : Option α × RedisCacheBackend α :=
  match alLookup r.store (r.namespacedKey key) with
  | none => (none, r)
  | some entry =>
    if is_expired entry now then (none, r) else (some entry.value, r)

/-- The duck-typed backend family behind `CacheManager`: in-memory,
Redis, or the disabled `NullCache` (the diskcache variant shares the
in-memory semantics through the same interface). -/
inductive CacheBackend (α : Type) where
  | mem : InMemoryCache α → CacheBackend α
  | redis : RedisCacheBackend α → CacheBackend α
  | null : CacheBackend α
deriving DecidableEq

/-- `CacheBackend.enabled`: `NullCache.enabled = False`, every other
backend is enabled (lines 45, 64). -/
def CacheBackend.enabled {α : Type} : CacheBackend α → Bool
  | .null => false
  | _ => true

/-- Backend `default_ttl` attribute (line 46). -/
def CacheBackend.default_ttl {α : Type} : CacheBackend α → Option Int
  | .mem c => c.default_ttl
  | .redis r => r.default_ttl
  | .null => none

/-- Dispatch of `backend.get` (`NullCache.get` returns the default). -/
def CacheBackend.get {α : Type} :
    CacheBackend α → Int → String → Option α × CacheBackend α
  | .mem c, now, key =>
    let r := c.get now key
    (r.1, .mem r.2)
  | .redis r, now, key =>
    let q := r.get now key
    (q.1, .redis q.2)
  | .null, _, _ => (none, .null)

/-- Dispatch of `backend.set` (`NullCache.set` is a no-op). -/
def CacheBackend.set {α : Type} :
    CacheBackend α → Int → String → α → Option Int → CacheBackend α
  | .mem c, now, key, v, ttl => .mem (c.set now key v ttl)
  | .redis r, now, key, v, ttl => .redis (r.set now key v ttl)
  | .null, _, _, _, _ => .null

/-- Per-namespace hit/miss/store counters kept by `CacheManager`. -/
structure NsMetrics where
  hits : Nat
  misses : Nat
  stores : Nat
deriving DecidableEq

/-- `CacheManager` (utils/cache.py lines 216-338).  `backend_calls` is
ghost instrumentation counting every dispatch into the backend, so that
"the backend was not invoked" is an observable statement. -/
structure CacheManager (α : Type) where
  backend : CacheBackend α
  enabled : Bool
  default_ttl : Option Int
  namespace_ttls : List (String × Option Int)
  ns_metrics : List (String × NsMetrics)
  backend_calls : Nat
deriving DecidableEq

/-- `CacheManager.__init__` (lines 221-235): effective enablement is
`enabled and backend.enabled`; the manager default TTL falls back to the
backend's. -/
def CacheManager.init {α : Type} (backend : CacheBackend α) (enabled : Bool)
    (default_ttl : Option Int) : CacheManager α :=
  { backend := backend
    enabled := enabled && backend.enabled
    default_ttl := match default_ttl with
      | some d => some d
      | none => backend.default_ttl
    namespace_ttls := []
    ns_metrics := []
    backend_calls := 0 }

/-- `CacheManager.configure_namespace` (lines 237-240). -/
def CacheManager.configure_namespace {α : Type} (m : CacheManager α) (ns : String)
    (ttl : Option Int) : CacheManager α :=
  { m with namespace_ttls := alUpdate m.namespace_ttls (normNs ns) ttl }

/-- `CacheManager._namespaced_key` (lines 242-244). -/
def namespaced_key (ns key : String) : String := normNs ns ++ ":" ++ key

/-- `CacheManager._effective_ttl` (lines 246-256). -/
def CacheManager.effective_ttl {α : Type} (m : CacheManager α) (ns : String)
    (ttl_override : Option Int) : Option Int :=
  if m.enabled = false then none
  else
    match ttl_override with
    | some t => if 0 < t then some t else none
    | none =>
      match (alLookup m.namespace_ttls (normNs ns)).getD m.default_ttl with
      | none => none
      | some t => if t ≤ 0 then none else some t

/-- `CacheManager._update_metrics` (lines 258-276). -/
def CacheManager.update_metrics {α : Type} (m : CacheManager α) (ns : String)
    (hit : Option Bool) (stored : Bool) : CacheManager α :=
  let n := normNs ns
  let cur := (alLookup m.ns_metrics n).getD ⟨0, 0, 0⟩
  let cur1 := match hit with
    | some true => { cur with hits := cur.hits + 1 }
    | some false => { cur with misses := cur.misses + 1 }
    | none => cur
  let cur2 := if stored then { cur1 with stores := cur1.stores + 1 } else cur1
  { m with ns_metrics := alUpdate m.ns_metrics n cur2 }

/-- `CacheManager.get` (lines 278-287). -/
def CacheManager.get {α : Type} (m : CacheManager α) (now : Int) (ns key : String) :
    (Option α × Bool) × CacheManager α :=
  if m.enabled = false then ((none, false), m)
  else
    let nk := namespaced_key ns key
    let r := m.backend.get now nk
    let m1 : CacheManager α :=
      { m with backend := r.2, backend_calls := m.backend_calls + 1 }
    let m2 := m1.update_metrics ns (some r.1.isSome) false
    match r.1 with
    | some x => ((some x, true), m2)
    | none => ((none, false), m2)

/-- `CacheManager.set` (lines 289-305). -/
def CacheManager.set {α : Type} (m : CacheManager α) (now : Int) (ns key : String)
    (v : α) (ttl : Option Int) : Bool × CacheManager α :=
  if m.enabled = false then (false, m)
  else
    match m.effective_ttl ns ttl with
    | none => (false, m)
    | some et =>
      let nk := namespaced_key ns key
      let b := m.backend.set now nk v (some et)
      let m1 : CacheManager α :=
        { m with backend := b, backend_calls := m.backend_calls + 1 }
      (true, m1.update_metrics ns none true)

/-- Claim C4, counterexample: a `set` whose effective TTL is `None`
(explicit `ttl=None` with no default TTL configured) is **not** a store
no-op — the in-memory backend stores the entry without expiry and a
subsequent `get` returns the stored value; likewise the Redis backend
stores forever on `ttl=0`. -/
theorem backend_set_no_ttl_stores :
    (InMemoryCache.get
        (InMemoryCache.set (⟨none, []⟩ : InMemoryCache Nat) 0 "k" 7 none) 0 "k").1
      = some 7
    ∧ (RedisCacheBackend.get
        (RedisCacheBackend.set (⟨none, "fred", []⟩ : RedisCacheBackend Nat)
          0 "k" 7 (some 0)) 5 "k").1
      = some 7 := by
  constructor
  · decide
  · decide

/-- Claim C4, amended: a `set` with an explicit non-positive TTL (or a
`None` TTL resolving to a non-positive default) is a store no-op on the
in-memory backend; but a `None` effective TTL stores without expiry, and
the Redis backend stores without expiry for every non-positive or `None`
TTL. -/
theorem backend_set_nonpositive_ttl {α : Type} :
    (∀ (c : InMemoryCache α) (now : Int) (key : String) (v : α) (t : Int),
      t ≤ 0 → c.set now key v (some t) = c)
    ∧ (∀ (c : InMemoryCache α) (now : Int) (key : String) (v : α) (d : Int),
      c.default_ttl = some d → d ≤ 0 → c.set now key v none = c)
    ∧ (∀ (c : InMemoryCache α) (now : Int) (key : String) (v : α),
      c.default_ttl = none →
        c.set now key v none
          = { c with store := alUpdate c.store key ⟨v, none⟩ })
    ∧ (∀ (r : RedisCacheBackend α) (now : Int) (key : String) (v : α) (t : Int),
      t ≤ 0 →
        r.set now key v (some t)
          = { r with store := alUpdate r.store (r.namespacedKey key) ⟨v, none⟩ }) := by
  refine ⟨?_, ?_, ?_, ?_⟩
  · intro c now key v t ht
    simp [InMemoryCache.set, ht]
  · intro c now key v d hd hle
    simp [InMemoryCache.set, hd, hle]
  · intro c now key v hd
    simp [InMemoryCache.set, hd]
  · intro r now key v t ht
    simp [RedisCacheBackend.set, not_lt.2 ht]

/-- Witness for `backend_set_nonpositive_ttl` at concrete backends. -/
theorem backend_set_nonpositive_ttl_witness :
    InMemoryCache.set (⟨none, []⟩ : InMemoryCache Nat) 0 "k" 7 (some 0) = ⟨none, []⟩
    ∧ InMemoryCache.set (⟨some (-1), []⟩ : InMemoryCache Nat) 0 "k" 7 none
        = ⟨some (-1), []⟩
    ∧ RedisCacheBackend.set (⟨none, "fred", []⟩ : RedisCacheBackend Nat) 0 "k" 7 (some 0)
        = ⟨none, "fred", [("fred:k", ⟨7, none⟩)]⟩ :=
  ⟨(backend_set_nonpositive_ttl (α := Nat)).1 _ 0 "k" 7 0 (by decide),
   (backend_set_nonpositive_ttl (α := Nat)).2.1 _ 0 "k" 7 (-1) rfl (by decide),
   by
    rw [(backend_set_nonpositive_ttl (α := Nat)).2.2.2 _ 0 "k" 7 0 (by decide)]
    decide⟩

theorem alLookup_alErase_self {β : Type} (l : List (String × β)) (k : String) :
    alLookup l k = none → alErase l k = l := by
  induction l with
  | nil => intro _; rfl
  | cons hd tl ih =>
    obtain ⟨k', v'⟩ := hd
    intro h
    by_cases hk : k' = k
    · simp [alLookup, hk] at h
    · simp [alLookup, hk] at h
      simp [alErase, hk, ih h]

/-- Claim C7: with the in-memory backend, after
`set(ns, key, v, ttl > 0)` at instant `t0` on an enabled manager, `get`
returns `(v, true)` at every instant strictly before `t0 + ttl` and
`(None, False)` at every instant strictly after. -/
theorem cache_round_trip {α : Type} (m : CacheManager α) (c : InMemoryCache α)
    (ns key : String) (v : α) (ttl t0 t : Int)
    (hb : m.backend = .mem c) (hen : m.enabled = true) (httl : 0 < ttl) :
    (m.set t0 ns key v (some ttl)).1 = true
    ∧ (t < t0 + ttl →
        ((m.set t0 ns key v (some ttl)).2.get t ns key).1 = (some v, true))
    ∧ (t0 + ttl < t →
        ((m.set t0 ns key v (some ttl)).2.get t ns key).1 = (none, false)) := by
  have hset : m.set t0 ns key v (some ttl)
      = (true,
          CacheManager.update_metrics
            { m with
                backend := .mem
                  { c with
                      store := (alUpdate c.store (namespaced_key ns key)
                        (CacheEntry.mk v (some (t0 + ttl)))) }
                backend_calls := m.backend_calls + 1 }
            ns none true) := by
    rw [CacheManager.set]
    rw [if_neg (by simp [hen])]
    rw [CacheManager.effective_ttl, if_neg (by simp [hen])]
    simp only [if_pos httl]
    rw [hb]
    rw [CacheBackend.set, InMemoryCache.set]
    simp only [not_le.2 httl, if_neg (not_le.2 httl)]
    simp
  refine ⟨by rw [hset], ?_, ?_⟩
  · intro hlt
    rw [hset]
    rw [CacheManager.get]
    rw [if_neg (by simp [CacheManager.update_metrics, hen])]
    simp only [CacheManager.update_metrics, CacheBackend.get, InMemoryCache.get,
      alLookup_alUpdate]
    rw [is_expired]
    simp [not_le.2 hlt]
  · intro hgt
    rw [hset]
    rw [CacheManager.get]
    rw [if_neg (by simp [CacheManager.update_metrics, hen])]
    simp only [CacheManager.update_metrics, CacheBackend.get, InMemoryCache.get,
      alLookup_alUpdate]
    rw [is_expired]
    simp [le_of_lt hgt]

/-- Witness for `cache_round_trip` on a concrete enabled manager: value
visible at instant 3, gone at instant 12, for `ttl = 10` set at 0. -/
theorem cache_round_trip_witness :
    ((CacheManager.init (CacheBackend.mem (⟨none, []⟩ : InMemoryCache Nat)) true
        none).set 0 "gdp" "k" 7 (some 10)).1 = true
    ∧ (((CacheManager.init (CacheBackend.mem (⟨none, []⟩ : InMemoryCache Nat)) true
        none).set 0 "gdp" "k" 7 (some 10)).2.get 3 "gdp" "k").1 = (some 7, true)
    ∧ (((CacheManager.init (CacheBackend.mem (⟨none, []⟩ : InMemoryCache Nat)) true
        none).set 0 "gdp" "k" 7 (some 10)).2.get 12 "gdp" "k").1 = (none, false) :=
  ⟨(cache_round_trip _ _ "gdp" "k" 7 10 0 3 rfl rfl (by decide)).1,
   (cache_round_trip _ _ "gdp" "k" 7 10 0 3 rfl rfl (by decide)).2.1 (by decide),
   (cache_round_trip _ _ "gdp" "k" 7 10 0 12 rfl rfl (by decide)).2.2 (by decide)⟩

/-- Claim C9: a disabled `CacheManager` (constructed with
`enabled=False`, or over the disabled `NullCache` backend) answers
`get` with `(None, False)` and `set` with `False` for every input,
leaving its entire state — backend, per-namespace counters, and the
ghost backend-invocation counter — untouched. -/
theorem manager_disabled_noop {α : Type} (m : CacheManager α) (now : Int)
    (ns key : String) (v : α) (ttl : Option Int) (h : m.enabled = false) :
    m.get now ns key = ((none, false), m)
    ∧ m.set now ns key v ttl = (false, m)
    ∧ (∀ (b : CacheBackend α) (dt : Option Int),
        (CacheManager.init b false dt).enabled = false)
    ∧ (∀ (en : Bool) (dt : Option Int),
        (CacheManager.init (CacheBackend.null (α := α)) en dt).enabled = false) := by
  refine ⟨?_, ?_, ?_, ?_⟩
  · rw [CacheManager.get, if_pos (by simp [h])]
  · rw [CacheManager.set, if_pos (by simp [h])]
  · intro b dt
    simp [CacheManager.init]
  · intro en dt
    simp [CacheManager.init, CacheBackend.enabled]

/-- Witness for `manager_disabled_noop` on a concrete manager built over
the null backend. -/
theorem manager_disabled_noop_witness :
    (CacheManager.init (CacheBackend.null (α := Nat)) true none).get 0 "gdp" "k"
      = ((none, false), CacheManager.init (CacheBackend.null (α := Nat)) true none)
    ∧ (CacheManager.init (CacheBackend.null (α := Nat)) true none).set 0 "gdp" "k" 7
        (some 60)
      = (false, CacheManager.init (CacheBackend.null (α := Nat)) true none) :=
  ⟨(manager_disabled_noop _ 0 "gdp" "k" 7 (some 60) (by decide)).1,
   (manager_disabled_noop _ 0 "gdp" "k" 7 (some 60) (by decide)).2.1⟩

/-! ## `FredClient.get_json` (utils/fred_client.py, lines 167-247)

The client is modelled as constructed with `rate_limiter=None` (a
configuration the source constructor accepts; every limiter interaction
is guarded by `if self._rate_limiter is not None`).  The global metrics
counters are pure observability and are not part of the model.  Network
responses are an explicit queue consumed one per HTTP attempt. -/

/-- The payload fields `get_json` inspects (`error_code`,
`error_message`); a FRED JSON body. -/
structure Payload where
  error_code : Option Int
  error_message : Option String
deriving DecidableEq

/-- Python truthiness of `payload.get("error_code")`: present and
non-zero. -/
def errCodeTruthy (p : Payload) : Bool :=
  match p.error_code with
  | some c => decide (c ≠ 0)
  | none => false

/-- One upstream HTTP response; `payload = none` models a body on which
`response.json()` raises `ValueError`. -/
structure HttpResp where
  status_code : Nat
  payload : Option Payload
  url : String
deriving DecidableEq

/-- `FredAPIError` (utils/fred_client.py lines 22-44), as a value. -/
structure FredErr where
  message : String
  status_code : Option Nat
  retryable : Bool
deriving DecidableEq

/-- `FredAPIResponse` (lines 55-75). -/
structure FredAPIResponse where
  payload : Payload
  url : String
  status_code : Nat
  from_cache : Bool
deriving DecidableEq

/-- `FredAPIResponse.as_cache_hit` (lines 68-75). -/
def as_cache_hit (r : FredAPIResponse) : FredAPIResponse :=
  { r with from_cache := true }

/-- Client-visible state threaded through `get_json`: the shared cache
manager, the pending upstream responses, and the clock. -/
structure ClientState where
  cache : CacheManager FredAPIResponse
  net : List HttpResp
  now : Int
deriving DecidableEq

/-- One attempt of `_request_with_retries` (lines 122-165) with no rate
limiter: an exhausted queue models a `requests` network exception
(retryable); 429 and 5xx raise retryable `FredAPIError`s; anything else
is returned to `get_json`. -/
def do_attempt (s : ClientState) : Except FredErr HttpResp × ClientState :=
  match s.net with
  | [] => (.error ⟨"connection error", none, true⟩, s)
  | r :: rest =>
    let s' := { s with net := rest }
    if r.status_code = 429 then
      (.error ⟨"Rate limit exceeded", some 429, true⟩, s')
    else if 500 ≤ r.status_code ∧ r.status_code < 600 then
      (.error ⟨"FRED API request failed", some r.status_code, true⟩, s')
    else (.ok r, s')

/-- The tenacity policy on `_request_with_retries`:
`stop_after_attempt(3)`, retry only retryable errors, `reraise=True`
(the fuel is the remaining attempt budget, started at 3). -/
def request_with_retries : Nat → ClientState → Except FredErr HttpResp × ClientState
  | 0, s => (.error ⟨"retry budget exhausted", none, false⟩, s)
  | n + 1, s =>
    match do_attempt s with
    | (.ok r, s') => (.ok r, s')
    | (.error e, s') =>
      if e.retryable ∧ n ≠ 0 then request_with_retries n s'
      else (.error e, s')

/-- `FredClient.get_json` (lines 167-247): cache lookup, network call
with retries on a miss, JSON/status classification, and the
`should_cache = cache_errors or not payload.get("error_code")` store
policy. -/
def get_json (s : ClientState) (url : String) (params : List (String × PValue))
    (ns : String) (ttl : Option Int) (cache_errors : Bool) :
    Except FredErr FredAPIResponse × ClientState :=
  let cache_key := build_cache_key url params
  let g := s.cache.get s.now ns cache_key
  match g.1.1, g.1.2 with
  | some cached, true => (.ok (as_cache_hit cached), { s with cache := g.2 })
  | _, _ =>
    let s1 : ClientState := { s with cache := g.2 }
    match request_with_retries 3 s1 with
    | (.error e, s2) => (.error e, s2)
    | (.ok resp, s2) =>
      match resp.payload with
      | none =>
        (.error ⟨"Invalid JSON payload returned by FRED", some resp.status_code, false⟩,
          s2)
      | some payload =>
        if resp.status_code < 400 then
          let api_response : FredAPIResponse := ⟨payload, resp.url, resp.status_code, false⟩
          let should_cache := cache_errors || !(errCodeTruthy payload)
          if should_cache then
            let r := s2.cache.set s2.now ns cache_key api_response ttl
            (.ok api_response, { s2 with cache := r.2 })
          else (.ok api_response, s2)
        else
          (.error ⟨payload.error_message.getD "FRED API request failed",
            some resp.status_code, false⟩, s2)

instance {ε α : Type} [DecidableEq ε] [DecidableEq α] : DecidableEq (Except ε α) :=
  fun x y =>
    match x, y with
    | .ok a, .ok b =>
      if h : a = b then .isTrue (h ▸ rfl)
      else .isFalse (fun hc => h (Except.ok.inj hc))
    | .error a, .error b =>
      if h : a = b then .isTrue (h ▸ rfl)
      else .isFalse (fun hc => h (Except.error.inj hc))
    | .ok _, .error _ => .isFalse (fun hc => Except.noConfusion hc)
    | .error _, .ok _ => .isFalse (fun hc => Except.noConfusion hc)

/-- The mocked upstream error payload of the C3 scenario. -/
def errPayload : Payload := ⟨some 400, some "bad request"⟩

/-- An HTTP 200 response carrying the application-level error payload. -/
def errResp : HttpResp :=
  ⟨200, some errPayload, "https://api.stlouisfed.org/fred/series/observations"⟩

/-- Claim C3, counterexample: on an HTTP 200 response whose payload
carries a truthy `error_code`, `get_json` does **not** surface a
structured error — it returns the payload as an ordinary successful
`FredAPIResponse` (and merely skips the cache store). -/
theorem get_json_error_payload_success :
    (get_json
        ⟨CacheManager.init (CacheBackend.mem (⟨none, []⟩ : InMemoryCache FredAPIResponse))
            true none,
          [errResp, errResp], 0⟩
        "https://api.stlouisfed.org/fred/series/observations" [] "gdp" (some 3600)
        false).1
      = .ok ⟨errPayload, "https://api.stlouisfed.org/fred/series/observations", 200, false⟩ := by
  decide

theorem get_json_error_code_single
    (m : CacheManager FredAPIResponse) (c : InMemoryCache FredAPIResponse)
    (rest : List HttpResp) (now : Int) (url ns : String)
    (params : List (String × PValue)) (p : Payload) (r : HttpResp) (ttl : Option Int)
    (hb : m.backend = .mem c)
    (hmiss : alLookup c.store (namespaced_key ns (build_cache_key url params)) = none)
    (hr : r.status_code = 200) (hp : r.payload = some p)
    (hcode : errCodeTruthy p = true) :
    ∃ m2 : CacheManager FredAPIResponse,
      get_json ⟨m, r :: rest, now⟩ url params ns ttl false
        = (.ok ⟨p, r.url, 200, false⟩, ⟨m2, rest, now⟩)
      ∧ m2.backend = .mem c ∧ m2.enabled = m.enabled := by
  have hbg : (CacheBackend.mem c).get now (namespaced_key ns (build_cache_key url params))
      = (none, .mem c) := by
    rw [CacheBackend.get, InMemoryCache.get, hmiss]
  obtain ⟨sc, pl, ru⟩ := r
  simp only [HttpResp.status_code] at hr
  simp only [HttpResp.payload] at hp
  subst hr
  subst hp
  by_cases hen : m.enabled = false
  · refine ⟨m, ?_, hb, rfl⟩
    simp only [get_json, CacheManager.get, hen, if_pos, request_with_retries,
      do_attempt, hcode]
    norm_num
    intro hfalse
    rw [hcode] at hfalse
    exact Bool.noConfusion hfalse
  · have hen' : m.enabled = true := by
      cases h : m.enabled with
      | false => exact absurd h hen
      | true => rfl
    refine ⟨CacheManager.update_metrics
      { m with backend := .mem c, backend_calls := m.backend_calls + 1 }
      ns (some false) false, ?_, ?_, ?_⟩
    · simp only [get_json, CacheManager.get, hen', hb, hbg, request_with_retries,
        do_attempt, hcode]
      norm_num
      intro hfalse
      rw [hcode] at hfalse
      exact Bool.noConfusion hfalse
    · simp [CacheManager.update_metrics]
    · simp [CacheManager.update_metrics, hen']

/-- Claim C3, amended: an HTTP 200 response with a truthy `error_code`
is returned by `get_json` as an ordinary success value, but with
`cache_errors=False` it is never stored: the backend is unchanged after
the call, and a second identical call re-hits the network (its result is
again a fresh, `from_cache=False` response and the response queue
shrinks again). -/
theorem get_json_error_payload_not_cached
    (m : CacheManager FredAPIResponse) (c : InMemoryCache FredAPIResponse)
    (now : Int) (url ns : String)
    (params : List (String × PValue)) (p : Payload) (r : HttpResp) (ttl : Option Int)
    (hb : m.backend = .mem c)
    (hmiss : alLookup c.store (namespaced_key ns (build_cache_key url params)) = none)
    (hr : r.status_code = 200) (hp : r.payload = some p)
    (hcode : errCodeTruthy p = true) :
    ∃ m2 m3 : CacheManager FredAPIResponse,
      get_json ⟨m, [r, r], now⟩ url params ns ttl false
        = (.ok ⟨p, r.url, 200, false⟩, ⟨m2, [r], now⟩)
      ∧ m2.backend = .mem c
      ∧ get_json ⟨m2, [r], now⟩ url params ns ttl false
        = (.ok ⟨p, r.url, 200, false⟩, ⟨m3, [], now⟩)
      ∧ m3.backend = .mem c := by
  obtain ⟨m2, h1, hb2, _⟩ :=
    get_json_error_code_single m c [r] now url ns params p r ttl hb hmiss hr hp hcode
  obtain ⟨m3, h2, hb3, _⟩ :=
    get_json_error_code_single m2 c [] now url ns params p r ttl hb2 hmiss hr hp hcode
  exact ⟨m2, m3, h1, hb2, h2, hb3⟩

/-- Witness for `get_json_error_payload_not_cached` on the concrete C3
scenario state. -/
theorem get_json_error_payload_not_cached_witness :
    ∃ m2 m3 : CacheManager FredAPIResponse,
      get_json
          ⟨CacheManager.init
              (CacheBackend.mem (⟨none, []⟩ : InMemoryCache FredAPIResponse)) true none,
            [errResp, errResp], 0⟩
          "https://api.stlouisfed.org/fred/series/observations" [] "gdp" (some 3600)
          false
        = (.ok ⟨errPayload, errResp.url, 200, false⟩, ⟨m2, [errResp], 0⟩)
      ∧ m2.backend = .mem (⟨none, []⟩ : InMemoryCache FredAPIResponse)
      ∧ get_json ⟨m2, [errResp], 0⟩
          "https://api.stlouisfed.org/fred/series/observations" [] "gdp" (some 3600)
          false
        = (.ok ⟨errPayload, errResp.url, 200, false⟩, ⟨m3, [], 0⟩)
      ∧ m3.backend = .mem (⟨none, []⟩ : InMemoryCache FredAPIResponse) :=
  get_json_error_payload_not_cached _ _ 0
    "https://api.stlouisfed.org/fred/series/observations" "gdp" [] errPayload errResp
    (some 3600) rfl rfl rfl rfl (by decide)

/-! ## Rate limiter (utils/rate_limiter.py)

`acquire` is modelled under the deterministic single-thread clock the
testable properties require: `sleep(wait)` advances the clock by exactly
`wait` and nothing else runs.  Under that clock the source loop's
re-check after one sleep always admits (`acquire_second_check`), so the
loop is embedded as at most one sleep plus a re-check; the theorems
below never rely on the (provably unreachable) third branch. -/

/-- `_RateWindow` (utils/rate_limiter.py lines 17-39). -/
structure RateWindow where
  capacity : Nat
  window : Int
  timestamps : List Int
deriving DecidableEq

/-- `_RateWindow._prune` (lines 25-28): pop leading timestamps
`<= now - window`. -/
def RateWindow.prune (w : RateWindow) (now : Int) : RateWindow :=
  { w with timestamps := w.timestamps.dropWhile (fun ts => decide (ts ≤ now - w.window)) }

/-- The wait computation of `_RateWindow.required_wait` (lines 30-35)
after the prune: zero while below capacity, else how long until the
earliest timestamp leaves the window (the `none` head case is
unreachable for the positive capacities the constructor builds). -/
def RateWindow.wait_pruned (w : RateWindow) (now : Int) : Int :=
  if w.timestamps.length < w.capacity then 0
  else
    match w.timestamps.head? with
    | some earliest => pymax 0 (earliest + w.window - now)
    | none => 0

/-- `_RateWindow.required_wait` (lines 30-35): prune (a mutation in the
source), then compute the wait. -/
def RateWindow.required_wait (w : RateWindow) (now : Int) : Int × RateWindow :=
  let w' := w.prune now
  (w'.wait_pruned now, w')

/-- `_RateWindow.record` (lines 37-39): prune, then append the new
timestamp. -/
def RateWindow.record (w : RateWindow) (t : Int) : RateWindow :=
  let w' := w.prune t
  { w' with timestamps := w'.timestamps ++ [t] }

/-- `CoordinatedRateLimiter` state (lines 42-77), with the deterministic
clock `now` and the ghost admission log `log` recording every time
`acquire` granted a slot. -/
structure Limiter where
  enabled : Bool
  windows : List RateWindow
  penalty_until : Int
  now : Int
  log : List Int
deriving DecidableEq

/-- The fold of `_required_wait_locked` (lines 79-83) over the windows,
threading the pruned windows and accumulating the max wait. -/
def requiredWaitWindows : List RateWindow → Int → Int → Int × List RateWindow
  | [], _, acc => (acc, [])
  | w :: ws, now, acc =>
    let r := w.required_wait now
    let rest := requiredWaitWindows ws now (pymax acc r.1)
    (rest.1, r.2 :: rest.2)

/-- `CoordinatedRateLimiter._required_wait_locked` (lines 79-83):
`max(0, penalty_until - now, windows...)`, pruning each window. -/
def Limiter.required_wait_locked (s : Limiter) : Int × Limiter :=
  let r := requiredWaitWindows s.windows s.now (pymax 0 (s.penalty_until - s.now))
  (r.1, { s with windows := r.2 })

/-- The admit step of `acquire` (lines 95-99): record `now` into every
window atomically, and log the admission. -/
def Limiter.record_all (s : Limiter) : Limiter :=
  { s with
      windows := s.windows.map (fun w => w.record s.now)
      log := s.log ++ [s.now] }

/-- `self._sleep(wait)` on the deterministic clock: time advances by
exactly the slept amount. -/
def Limiter.sleep_state (s : Limiter) (w : Int) : Limiter :=
  { s with now := s.now + w }

/-- `CoordinatedRateLimiter.acquire` (lines 85-101) under the
deterministic clock; returns the first computed wait together with the
final state.  After one sleep the re-check admits (the loop's third
iteration is unreachable), so the final `else` leaf merely returns the
re-checked state. -/
def Limiter.acquire (s : Limiter) : Int × Limiter :=
  if s.enabled = false then (0, s)
  else
    if (s.required_wait_locked).1 ≤ 0 then
      ((s.required_wait_locked).1, (s.required_wait_locked).2.record_all)
    else
      if (((s.required_wait_locked).2.sleep_state
            (s.required_wait_locked).1).required_wait_locked).1 ≤ 0 then
        ((s.required_wait_locked).1,
          (((s.required_wait_locked).2.sleep_state
            (s.required_wait_locked).1).required_wait_locked).2.record_all)
      else
        ((s.required_wait_locked).1,
          (((s.required_wait_locked).2.sleep_state
            (s.required_wait_locked).1).required_wait_locked).2)

/-- `CoordinatedRateLimiter.register_penalty` (lines 103-115): ignored
when disabled or `delay <= 0`, else the deadline becomes
`max(penalty_until, now + delay)`. -/
def Limiter.register_penalty (s : Limiter) (delay : Int) : Limiter :=
  if s.enabled = false ∨ delay ≤ 0 then s
  else { s with penalty_until := pymax s.penalty_until (s.now + delay) }

/-- `CoordinatedRateLimiter.__init__` (lines 45-68): one window per
configured positive budget (`per_second` over 1s, `per_minute` over
60s); the limiter is enabled only when asked and at least one window
exists. -/
def CoordinatedRateLimiter.init (per_second per_minute : Option Int)
    (enabled : Bool) (t0 : Int) : Limiter :=
  let ws1 : List RateWindow := match per_second with
    | some n => if 0 < n then [⟨n.toNat, 1, []⟩] else []
    | none => []
  let ws2 : List RateWindow := match per_minute with
    | some n => if 0 < n then [⟨n.toNat, 60, []⟩] else []
    | none => []
  let windows := ws1 ++ ws2
  { enabled := enabled && !windows.isEmpty
    windows := windows
    penalty_until := 0
    now := t0
    log := [] }

theorem le_pymax_left (a b : Int) : a ≤ pymax a b := by
  by_cases h : a ≤ b <;> simp [pymax, h]

theorem le_pymax_right (a b : Int) : b ≤ pymax a b := by
  by_cases h : a ≤ b <;> simp [pymax, h]
  omega

theorem pymax_le {a b c : Int} (h1 : a ≤ c) (h2 : b ≤ c) : pymax a b ≤ c := by
  by_cases h : a ≤ b <;> simp [pymax, h, h1, h2]

/-- Claim C6: the penalty deadline never decreases — `register_penalty`
with a non-positive delay is the identity, a positive delay moves the
deadline to at least `now + delay` (on an enabled limiter), and any
second registration, however small, never lowers the deadline set by a
first one. -/
theorem penalty_until_mono (s : Limiter) (d : Int) :
    s.penalty_until ≤ (s.register_penalty d).penalty_until := by
  rw [Limiter.register_penalty]
  by_cases h : s.enabled = false ∨ d ≤ 0
  · rw [if_pos h]
  · rw [if_neg h]
    exact le_pymax_left _ _

theorem penalty_monotonic (s : Limiter) (d d1 d2 : Int) :
    s.penalty_until ≤ (s.register_penalty d).penalty_until
    ∧ (d ≤ 0 → s.register_penalty d = s)
    ∧ (s.enabled = true → 0 < d → s.now + d ≤ (s.register_penalty d).penalty_until)
    ∧ (s.register_penalty d1).penalty_until
        ≤ ((s.register_penalty d1).register_penalty d2).penalty_until := by
  refine ⟨penalty_until_mono s d, ?_, ?_, penalty_until_mono _ d2⟩
  · intro hd
    rw [Limiter.register_penalty, if_pos (Or.inr hd)]
  · intro hen hd
    rw [Limiter.register_penalty, if_neg (by simp [hen]; omega)]
    exact le_pymax_right _ _

/-- Witness for `penalty_monotonic` on a concrete enabled limiter. -/
theorem penalty_monotonic_witness :
    (CoordinatedRateLimiter.init (some 2) none true 0).register_penalty (-5)
      = CoordinatedRateLimiter.init (some 2) none true 0
    ∧ (CoordinatedRateLimiter.init (some 2) none true 0).now + 5
      ≤ ((CoordinatedRateLimiter.init (some 2) none true 0).register_penalty 5).penalty_until :=
  ⟨(penalty_monotonic (CoordinatedRateLimiter.init (some 2) none true 0) (-5) 0 0).2.1
      (by decide),
   (penalty_monotonic (CoordinatedRateLimiter.init (some 2) none true 0) 5 0 0).2.2.1
      (by decide) (by decide)⟩

/-! ### The sliding-window budget invariant (claim C5)

The limiter is driven by an arbitrary sequence of operations (acquire
calls, non-negative clock advances between calls, penalty
registrations); `Limiter.log` records the admission instants. -/

/-- A driving operation for the limiter. -/
inductive LimiterOp where
  | acq : LimiterOp
  | advance : Int → LimiterOp
  | penalty : Int → LimiterOp
deriving DecidableEq

/-- Run a sequence of operations against the limiter. -/
def runOps (s : Limiter) : List LimiterOp → Limiter
  | [] => s
  | .acq :: ops => runOps (s.acquire).2 ops
  | .advance d :: ops => runOps { s with now := s.now + d } ops
  | .penalty d :: ops => runOps (s.register_penalty d) ops

/-- The clock never runs backwards: every `advance` is non-negative. -/
def advancesNonneg : List LimiterOp → Prop
  | [] => True
  | .advance d :: ops => 0 ≤ d ∧ advancesNonneg ops
  | _ :: ops => advancesNonneg ops

/-- Membership of an instant `x` in the half-open window of duration
`wdur` ending at `t` (the sliding window `required_wait` enforces:
a timestamp at exactly `t - wdur` is already pruned). -/
def inWindow (wdur t x : Int) : Bool :=
  decide (t - wdur < x) && decide (x ≤ t)

@[simp] theorem prune_capacity (w : RateWindow) (t : Int) :
    (w.prune t).capacity = w.capacity := rfl

@[simp] theorem prune_window (w : RateWindow) (t : Int) :
    (w.prune t).window = w.window := rfl

@[simp] theorem record_capacity (w : RateWindow) (t : Int) :
    (w.record t).capacity = w.capacity := rfl

@[simp] theorem record_window (w : RateWindow) (t : Int) :
    (w.record t).window = w.window := rfl

theorem prune_length_le (w : RateWindow) (t : Int) :
    (w.prune t).timestamps.length ≤ w.timestamps.length :=
  (List.dropWhile_sublist _).length_le

/-- Everything a well-formed window state guarantees relative to the
shared admission log: positive configuration, the timestamps are a
suffix of the log whose dropped prefix is long expired, and the deque
never exceeds capacity. -/
structure WInv (log : List Int) (now : Int) (w : RateWindow) : Prop where
  cap_pos : 0 < w.capacity
  win_pos : 0 < w.window
  split : ∃ pre, log = pre ++ w.timestamps ∧ ∀ x ∈ pre, x ≤ now - w.window
  len_le : w.timestamps.length ≤ w.capacity

/-- The limiter invariant maintained by every operation. -/
structure Inv (s : Limiter) : Prop where
  log_sorted : s.log.Sorted (· ≤ ·)
  log_le_now : ∀ x ∈ s.log, x ≤ s.now
  wins : ∀ w ∈ s.windows, WInv s.log s.now w
  counts : ∀ w ∈ s.windows, ∀ t ∈ s.log,
    s.log.countP (inWindow w.window t) ≤ w.capacity

theorem sorted_dropWhile_gt {l : List Int} (a : Int) (hs : l.Sorted (· ≤ ·)) :
    ∀ x ∈ l.dropWhile (fun ts => decide (ts ≤ a)), a < x := by
  induction l with
  | nil => intro x hx; simp [List.dropWhile] at hx
  | cons b t ih =>
    intro x hx
    rw [List.dropWhile_cons] at hx
    by_cases hb : b ≤ a
    · simp only [hb, decide_eq_true_eq, if_pos] at hx
      exact ih (List.Sorted.of_cons hs) x hx
    · simp [hb] at hx
      rcases hx with rfl | hx
      · omega
      · have := List.rel_of_sorted_cons hs x hx
        omega

theorem prune_split {log : List Int} {now t : Int} {w : RateWindow}
    (hsplit : ∃ pre, log = pre ++ w.timestamps ∧ ∀ x ∈ pre, x ≤ now - w.window)
    (hnt : now ≤ t) :
    ∃ pre, log = pre ++ (w.prune t).timestamps
      ∧ ∀ x ∈ pre, x ≤ t - w.window := by
  obtain ⟨pre, hlog, hpre⟩ := hsplit
  refine ⟨pre ++ w.timestamps.takeWhile (fun ts => decide (ts ≤ t - w.window)), ?_, ?_⟩
  · rw [hlog, RateWindow.prune]
    rw [List.append_assoc, List.takeWhile_append_dropWhile]
  · intro x hx
    rcases List.mem_append.1 hx with hx | hx
    · have := hpre x hx
      omega
    · have hx' := List.mem_takeWhile_imp hx
      exact of_decide_eq_true hx'

theorem winv_ts_sorted {log : List Int} {now : Int} {w : RateWindow}
    (hs : log.Sorted (· ≤ ·)) (hI : WInv log now w) :
    w.timestamps.Sorted (· ≤ ·) := by
  obtain ⟨pre, h1, _⟩ := hI.split
  rw [h1] at hs
  exact hs.sublist (List.sublist_append_right pre w.timestamps)

theorem rww_snd (ws : List RateWindow) (now acc : Int) :
    (requiredWaitWindows ws now acc).2 = ws.map (fun w => w.prune now) := by
  induction ws generalizing acc with
  | nil => rfl
  | cons w t ih => simp [requiredWaitWindows, RateWindow.required_wait, ih]

theorem rww_fst_ge_acc (ws : List RateWindow) (now acc : Int) :
    acc ≤ (requiredWaitWindows ws now acc).1 := by
  induction ws generalizing acc with
  | nil => exact le_refl acc
  | cons w t ih =>
    exact le_trans (le_pymax_left acc _) (ih _)

theorem rww_fst_ge_window (ws : List RateWindow) (now acc : Int) :
    ∀ w ∈ ws, (w.prune now).wait_pruned now ≤ (requiredWaitWindows ws now acc).1 := by
  induction ws generalizing acc with
  | nil => intro w hw; simp at hw
  | cons w0 t ih =>
    intro w hw
    rcases List.mem_cons.1 hw with rfl | hw
    · exact le_trans (le_pymax_right acc _) (rww_fst_ge_acc t now _)
    · exact ih _ w hw

theorem rwl_inv {s : Limiter} (h : Inv s) : Inv (s.required_wait_locked).2 := by
  have hwins : (s.required_wait_locked).2.windows
      = s.windows.map (fun w => w.prune s.now) := rww_snd _ _ _
  constructor
  · exact h.log_sorted
  · exact h.log_le_now
  · intro w hw
    rw [hwins] at hw
    obtain ⟨w0, hw0, rfl⟩ := List.mem_map.1 hw
    have hI := h.wins w0 hw0
    refine ⟨by simpa using hI.cap_pos, by simpa using hI.win_pos, ?_, ?_⟩
    · simpa using prune_split hI.split (le_refl s.now)
    · simpa using le_trans (prune_length_le w0 s.now) hI.len_le
  · intro w hw t ht
    rw [hwins] at hw
    obtain ⟨w0, hw0, rfl⟩ := List.mem_map.1 hw
    simpa using h.counts w0 hw0 t ht

theorem advance_inv {s : Limiter} (d : Int) (hd : 0 ≤ d) (h : Inv s) :
    Inv { s with now := s.now + d } := by
  constructor
  · exact h.log_sorted
  · intro x hx
    have := h.log_le_now x hx
    show x ≤ s.now + d
    omega
  · intro w hw
    have hI := h.wins w hw
    obtain ⟨pre, h1, h2⟩ := hI.split
    refine ⟨hI.cap_pos, hI.win_pos, ⟨pre, h1, ?_⟩, hI.len_le⟩
    intro x hx
    have := h2 x hx
    show x ≤ s.now + d - w.window
    omega
  · exact h.counts

theorem penalty_inv {s : Limiter} (d : Int) (h : Inv s) :
    Inv (s.register_penalty d) := by
  rw [Limiter.register_penalty]
  by_cases hc : s.enabled = false ∨ d ≤ 0
  · rw [if_pos hc]
    exact h
  · rw [if_neg hc]
    exact ⟨h.log_sorted, h.log_le_now, h.wins, h.counts⟩

theorem rwl_admit {s : Limiter} (h : Inv s)
    (hw : (s.required_wait_locked).1 ≤ 0) :
    ∀ w ∈ (s.required_wait_locked).2.windows, w.timestamps.length < w.capacity := by
  intro w hwmem
  have hwins : (s.required_wait_locked).2.windows
      = s.windows.map (fun x => x.prune s.now) := rww_snd _ _ _
  rw [hwins] at hwmem
  obtain ⟨w0, hw0, rfl⟩ := List.mem_map.1 hwmem
  by_contra hge
  push_neg at hge
  rw [prune_capacity] at hge
  have hI := h.wins w0 hw0
  have hcap : 0 < w0.capacity := hI.cap_pos
  have hne : (w0.prune s.now).timestamps ≠ [] := by
    intro hnil
    rw [hnil] at hge
    simp at hge
    omega
  obtain ⟨e, ts', hts⟩ := List.exists_cons_of_ne_nil hne
  have hmem : e ∈ (w0.prune s.now).timestamps := by
    rw [hts]
    exact List.mem_cons_self e ts'
  have hegt : s.now - w0.window < e :=
    sorted_dropWhile_gt (s.now - w0.window)
      (winv_ts_sorted h.log_sorted hI) e hmem
  have hwaitpos : 0 < (w0.prune s.now).wait_pruned s.now := by
    rw [RateWindow.wait_pruned]
    rw [if_neg (by simp only [prune_capacity]; omega)]
    rw [hts]
    simp only [List.head?_cons, prune_window]
    have hx : 0 < e + w0.window - s.now := by omega
    exact lt_of_lt_of_le hx (le_pymax_right 0 _)
  have hle : (w0.prune s.now).wait_pruned s.now ≤ (s.required_wait_locked).1 :=
    rww_fst_ge_window s.windows s.now (pymax 0 (s.penalty_until - s.now)) w0 hw0
  omega

theorem record_all_inv {s : Limiter} (h : Inv s)
    (hlt : ∀ w ∈ s.windows, (w.prune s.now).timestamps.length < w.capacity) :
    Inv s.record_all := by
  constructor
  · refine List.pairwise_append.2 ⟨h.log_sorted, List.sorted_singleton _, ?_⟩
    intro x hx y hy
    rcases List.mem_singleton.1 hy with rfl
    exact h.log_le_now x hx
  · intro x hx
    rcases List.mem_append.1 hx with hx | hx
    · exact h.log_le_now x hx
    · rcases List.mem_singleton.1 hx with rfl
      exact le_refl _
  · intro w hw
    obtain ⟨w0, hw0, rfl⟩ := List.mem_map.1 hw
    have hI := h.wins w0 hw0
    obtain ⟨pre, hsp, hpre⟩ := prune_split hI.split (le_refl s.now)
    refine ⟨by simpa using hI.cap_pos, by simpa using hI.win_pos, ?_, ?_⟩
    · refine ⟨pre, ?_, by simpa using hpre⟩
      show s.log ++ [s.now] = pre ++ (w0.record s.now).timestamps
      rw [RateWindow.record]
      show s.log ++ [s.now] = pre ++ ((w0.prune s.now).timestamps ++ [s.now])
      rw [← List.append_assoc, ← hsp]
    · show (w0.record s.now).timestamps.length ≤ w0.capacity
      rw [RateWindow.record]
      show ((w0.prune s.now).timestamps ++ [s.now]).length ≤ w0.capacity
      rw [List.length_append]
      have := hlt w0 hw0
      simp only [List.length_singleton]
      omega
  · intro w hw t' ht'
    obtain ⟨w0, hw0, rfl⟩ := List.mem_map.1 hw
    have hI := h.wins w0 hw0
    obtain ⟨pre, hsp, hpre⟩ := prune_split hI.split (le_refl s.now)
    have hkey : s.log.countP (inWindow w0.window s.now)
        ≤ (w0.prune s.now).timestamps.length := by
      rw [hsp, List.countP_append]
      have h0 : pre.countP (inWindow w0.window s.now) = 0 := by
        rw [List.countP_eq_zero]
        intro x hx
        have := hpre x hx
        simp [inWindow]
        omega
      rw [h0]
      simpa using List.countP_le_length _
    have hcapkey : s.log.countP (inWindow w0.window s.now) + 1 ≤ w0.capacity := by
      have := hlt w0 hw0
      omega
    have hself : inWindow w0.window s.now s.now = true := by
      have := hI.win_pos
      simp [inWindow]
      omega
    show (s.log ++ [s.now]).countP (inWindow (w0.record s.now).window t')
      ≤ (w0.record s.now).capacity
    simp only [record_window, record_capacity]
    rw [List.countP_append]
    rcases List.mem_append.1 ht' with hlog' | hsing
    · by_cases hin : inWindow w0.window t' s.now = true
      · have ht'le := h.log_le_now t' hlog'
        have hnle : s.now ≤ t' := by
          simp [inWindow] at hin
          omega
        have heq : t' = s.now := le_antisymm ht'le hnle
        subst heq
        simp only [List.countP_cons, List.countP_nil, hself]
        simpa using hcapkey
      · have hz : List.countP (inWindow w0.window t') [s.now] = 0 := by
          simp only [List.countP_cons, List.countP_nil]
          simp [hin]
        rw [hz]
        simpa using h.counts w0 hw0 t' hlog'
    · rcases List.mem_singleton.1 hsing with rfl
      simp only [List.countP_cons, List.countP_nil, hself]
      simpa using hcapkey

theorem acquire_inv {s : Limiter} (h : Inv s) : Inv (s.acquire).2 := by
  rw [Limiter.acquire]
  by_cases hen : s.enabled = false
  · rw [if_pos hen]
    exact h
  · rw [if_neg hen]
    by_cases h1 : (s.required_wait_locked).1 ≤ 0
    · rw [if_pos h1]
      apply record_all_inv (rwl_inv h)
      intro w hw
      have hlt := rwl_admit h h1 w hw
      have := prune_length_le w (s.required_wait_locked).2.now
      omega
    · rw [if_neg h1]
      have hInv2 : Inv ((s.required_wait_locked).2.sleep_state (s.required_wait_locked).1) := by
        have hpos : 0 ≤ (s.required_wait_locked).1 := by omega
        exact advance_inv _ hpos (rwl_inv h)
      by_cases h2 : (((s.required_wait_locked).2.sleep_state
          (s.required_wait_locked).1).required_wait_locked).1 ≤ 0
      · rw [if_pos h2]
        apply record_all_inv (rwl_inv hInv2)
        intro w hw
        have hlt := rwl_admit hInv2 h2 w hw
        have := prune_length_le w
          (((s.required_wait_locked).2.sleep_state
            (s.required_wait_locked).1).required_wait_locked).2.now
        omega
      · rw [if_neg h2]
        exact rwl_inv hInv2

theorem runOps_inv : ∀ (ops : List LimiterOp) (s : Limiter),
    Inv s → advancesNonneg ops → Inv (runOps s ops) := by
  intro ops
  induction ops with
  | nil =>
    intro s h _
    exact h
  | cons op rest ih =>
    intro s h hops
    cases op with
    | acq => exact ih _ (acquire_inv h) hops
    | advance d =>
      obtain ⟨hd, hrest⟩ := hops
      exact ih _ (advance_inv d hd h) hrest
    | penalty d => exact ih _ (penalty_inv d h) hops

theorem init_inv (per_second per_minute : Option Int) (enabled : Bool) (t0 : Int) :
    Inv (CoordinatedRateLimiter.init per_second per_minute enabled t0) := by
  have hchar : ∀ w ∈ (CoordinatedRateLimiter.init per_second per_minute enabled t0).windows,
      0 < w.capacity ∧ 0 < w.window ∧ w.timestamps = ([] : List Int) := by
    intro w hw
    simp only [CoordinatedRateLimiter.init] at hw
    rcases List.mem_append.1 hw with h1 | h1
    · cases per_second with
      | none => simp at h1
      | some n =>
        by_cases hn : 0 < n
        · simp only [hn, if_true] at h1
          rcases List.mem_singleton.1 h1 with rfl
          refine ⟨by show 0 < n.toNat; omega, by show (0:Int) < 1; omega, rfl⟩
        · simp only [hn, if_false] at h1
          simp at h1
    · cases per_minute with
      | none => simp at h1
      | some n =>
        by_cases hn : 0 < n
        · simp only [hn, if_true] at h1
          rcases List.mem_singleton.1 h1 with rfl
          refine ⟨by show 0 < n.toNat; omega, by show (0:Int) < 60; omega, rfl⟩
        · simp only [hn, if_false] at h1
          simp at h1
  constructor
  · exact List.sorted_nil
  · intro x hx
    simp [CoordinatedRateLimiter.init] at hx
  · intro w hw
    obtain ⟨hc, hwin, hts⟩ := hchar w hw
    exact ⟨hc, hwin, ⟨[], by simp [hts, CoordinatedRateLimiter.init], by simp⟩,
      by simp [hts]⟩
  · intro w hw t ht
    simp [CoordinatedRateLimiter.init] at ht

theorem exists_max_of_ne_nil (l : List Int) (h : l ≠ []) :
    ∃ m ∈ l, ∀ x ∈ l, x ≤ m := by
  induction l with
  | nil => exact absurd rfl h
  | cons a t ih =>
    cases t with
    | nil => exact ⟨a, by simp, by simp⟩
    | cons b t2 =>
      obtain ⟨m, hm, hmax⟩ := ih (by simp)
      by_cases hle : a ≤ m
      · refine ⟨m, by simp [hm], ?_⟩
        intro x hx
        rcases List.mem_cons.1 hx with rfl | hx2
        · exact hle
        · exact hmax x hx2
      · refine ⟨a, by simp, ?_⟩
        intro x hx
        rcases List.mem_cons.1 hx with rfl | hx2
        · exact le_refl x
        · exact le_trans (hmax x hx2) (le_of_not_le hle)

theorem countP_window_le_all {log : List Int} {W : Int} {cap : Nat}
    (hc : ∀ t ∈ log, log.countP (inWindow W t) ≤ cap) (a : Int) :
    log.countP (inWindow W a) ≤ cap := by
  by_cases hne : log.filter (inWindow W a) = []
  · rw [List.countP_eq_length_filter, hne]
    simp
  · obtain ⟨m, hm, hmax⟩ := exists_max_of_ne_nil _ hne
    have hmlog : m ∈ log := (List.mem_filter.1 hm).1
    have hma : inWindow W a m = true := (List.mem_filter.1 hm).2
    refine le_trans ?_ (hc m hmlog)
    apply List.countP_mono_left
    intro x hx hpx
    have hxf : x ∈ log.filter (inWindow W a) := List.mem_filter.2 ⟨hx, hpx⟩
    have hxm := hmax x hxf
    simp only [inWindow, Bool.and_eq_true, decide_eq_true_eq] at hpx hma ⊢
    omega

/-- Claim C5: for any operation sequence driven against a configured
limiter on a deterministic clock, every window's deque holds at most
`capacity` timestamps, and no half-open time interval of duration
`window` ever contains more than `capacity` logged admissions. -/
theorem rate_budget_invariant (per_second per_minute : Option Int) (enabled : Bool)
    (t0 : Int) (ops : List LimiterOp) (hops : advancesNonneg ops) :
    ∀ w ∈ (runOps (CoordinatedRateLimiter.init per_second per_minute enabled t0)
        ops).windows,
      w.timestamps.length ≤ w.capacity
      ∧ ∀ a : Int,
        (runOps (CoordinatedRateLimiter.init per_second per_minute enabled t0)
            ops).log.countP (inWindow w.window a) ≤ w.capacity := by
  intro w hw
  have hInv := runOps_inv ops _ (init_inv per_second per_minute enabled t0) hops
  exact ⟨(hInv.wins w hw).len_le,
    fun a => countP_window_le_all (hInv.counts w hw) a⟩

/-- Witness for `rate_budget_invariant`: three back-to-back acquires on
a `capacity=2, window=1` limiter leave the window with one timestamp and
at most two admissions in the interval `(-1, 0]`. -/
theorem rate_budget_invariant_witness :
    (⟨2, 1, [1]⟩ : RateWindow).timestamps.length ≤ (⟨2, 1, [1]⟩ : RateWindow).capacity
    ∧ (runOps (CoordinatedRateLimiter.init (some 2) none true 0)
        [.acq, .acq, .acq]).log.countP (inWindow 1 0) ≤ 2 := by
  have h := rate_budget_invariant (some 2) none true 0 [.acq, .acq, .acq]
    (by simp [advancesNonneg]) ⟨2, 1, [1]⟩ (by decide)
  exact ⟨h.1, h.2 0⟩

/-- Claim C8: on a `capacity=2, window=1s` limiter with the
deterministic clock started at 0, three back-to-back `acquire()` calls
compute waits 0, 0 and exactly 1 second, the third being admitted at
instant 1 after its sleep. -/
theorem third_acquire_waits_one_second :
    ((CoordinatedRateLimiter.init (some 2) none true 0).acquire).1 = 0
    ∧ (((CoordinatedRateLimiter.init (some 2) none true 0).acquire).2.acquire).1 = 0
    ∧ ((((CoordinatedRateLimiter.init (some 2) none true 0).acquire).2.acquire).2.acquire).1 = 1
    ∧ ((((CoordinatedRateLimiter.init (some 2) none true 0).acquire).2.acquire).2.acquire).2.now = 1 := by
  decide

/-! ## Fetch orchestrator (workflows/layers/fetch_data.py)

`fetch_gdp_data` is embedded over an explicit environment: the FRED
series-id table consulted through `get_series_id`
(workflows/utils/gdp_mappings.py line 625: `GDP_MAPPINGS.get(country,
{}).get(variant)`), the outcome of each `fred_client.get_json` call per
series id, and the pandas `to_datetime`/`float` parsers.  Worker-pool
concurrency only permutes the order in which completed fetches are
folded into the metadata; the embedding processes them in submission
order.  `ValueError` raised by `ThreadPoolExecutor(max_workers=0)` is
the `Except.error` branch. -/

/-- One entry of a FRED `observations` array (either field may be
missing). -/
structure ObsJson where
  date : Option String
  value : Option String
deriving DecidableEq

/-- Outcome of one `fred_client.get_json` call for a series: the
`observations` payload, a raised `FredAPIError`, or any other
exception. -/
inductive NetResult where
  | payload : List ObsJson → NetResult
  | fredError : String → NetResult
  | exn : String → NetResult
deriving DecidableEq

/-- The environment `fetch_gdp_data` runs against. -/
structure FetchEnv where
  get_series_id : String → String → Option String
  net : String → NetResult
  parse_date_ok : String → Bool
  parse_float : String → Option ℚ

/-- A pandas time series, as date-string/value pairs. -/
abbrev Series : Type := List (String × ℚ)

/-- The `source` field of a `GDP_VARIANT_DEPENDENCIES` entry (a single
variant name or a list). -/
inductive SourceSpec where
  | one : String → SourceSpec
  | many : List String → SourceSpec
deriving DecidableEq

/-- A `GDP_VARIANT_DEPENDENCIES` entry (the unused `formula` and
`description` strings are omitted). -/
structure DepInfo where
  source : SourceSpec
  fallback : Option String
deriving DecidableEq

/-- `GDP_VARIANT_DEPENDENCIES` (workflows/utils/gdp_mappings.py lines
592-619). -/
def GDP_VARIANT_DEPENDENCIES : List (String × DepInfo) :=
  [("growth_rate", ⟨.one "constant_2010", none⟩),
   ("per_capita_nominal", ⟨.many ["nominal_usd", "population"], some "fetch_direct"⟩),
   ("per_capita_constant", ⟨.many ["constant_2010", "population"], some "fetch_direct"⟩),
   ("per_capita_ppp", ⟨.many ["ppp_adjusted", "population"], some "fetch_direct"⟩)]

/-- An entry of `metadata["errors"]`: a per-series fetch failure
(carrying series id, country, variant and message, fetch_data.py lines
192-207) or a computation failure (lines 310-316). -/
inductive ErrorEntry where
  | fetchErr : String → String → String → String → ErrorEntry
  | computeErr : String → String → String → ErrorEntry
deriving DecidableEq

/-- `metadata` built by `fetch_gdp_data` (fetch_data.py lines 64-71;
the timestamp is environment noise and is omitted). -/
structure FetchMetadata where
  fetched_series : List String
  computed_variants : List String
  missing_series : List String
  errors : List ErrorEntry
  source_series : List (String × String)
deriving DecidableEq

/-- `data`: country → variant → series. -/
abbrev DataMap : Type := List (String × List (String × Series))

/-- `FetchResult` (fetch_data.py lines 26-30). -/
structure FetchResult where
  data : DataMap
  metadata : FetchMetadata
deriving DecidableEq

/-- `data[country][variant] = series` with `data[country] = {}` created
on demand (lines 243-246). -/
def dataInsert (data : DataMap) (country variant : String) (s : Series) : DataMap :=
  let cur := (alLookup data country).getD []
  alUpdate data country (alUpdate cur variant s)

/-- Step-1 accumulator: `series_to_fetch` (keyed `country:series_id`),
`computed_variants`, and `metadata["missing_series"]`. -/
structure Step1Acc where
  stf : List (String × (String × String))
  cv : List (String × List String)
  miss : List String

/-- The computed-variant branch of step 1 (lines 96-110): register the
variant's sources and queue every resolvable source series, recording
the unresolvable ones as missing. -/
def step1Sources (env : FetchEnv) (country variant : String)
    (sources : List String) (acc : Step1Acc) : Step1Acc :=
  let acc1 : Step1Acc := { acc with cv := alUpdate acc.cv variant sources }
  sources.foldl
    (fun a sv =>
      match env.get_series_id country sv with
      | some sid =>
        { a with stf := alUpdate a.stf (country ++ ":" ++ sid) (country, sv) }
      | none => { a with miss := a.miss ++ [country ++ "/" ++ sv] })
    acc1

/-- One body of the step-1 double loop (fetch_data.py lines 77-118). -/
def step1Variant (env : FetchEnv) (country variant : String) (acc : Step1Acc) :
    Step1Acc :=
  match alLookup GDP_VARIANT_DEPENDENCIES variant with
  | some dep =>
    let sources := match dep.source with
      | .one s => [s]
      | .many l => l
    if dep.fallback = some "fetch_direct" then
      match env.get_series_id country variant with
      | some sid =>
        { acc with stf := alUpdate acc.stf (country ++ ":" ++ sid) (country, variant) }
      | none => step1Sources env country variant sources acc
    else step1Sources env country variant sources acc
  | none =>
    match env.get_series_id country variant with
    | some sid =>
      { acc with stf := alUpdate acc.stf (country ++ ":" ++ sid) (country, variant) }
    | none => { acc with miss := acc.miss ++ [country ++ "/" ++ variant] }

/-- Step 1: determine what to fetch (lines 73-118). -/
def step1 (env : FetchEnv) (countries variants : List String) : Step1Acc :=
  countries.foldl
    (fun acc country =>
      variants.foldl (fun a variant => step1Variant env country variant a) acc)
    ⟨[], [], []⟩

/-- The observation-parsing loop of `_fetch_single_series` (lines
169-181): keep rows whose date and value are present and truthy, the
value is not `"."`, and both parse. -/
def parseObs (env : FetchEnv) (observations : List ObsJson) : List (String × ℚ) :=
  observations.filterMap (fun o =>
    match o.date, o.value with
    | some d, some v =>
      if d ≠ "" ∧ v ≠ "" ∧ v ≠ "." then
        if env.parse_date_ok d then
          match env.parse_float v with
          | some q => some (d, q)
          | none => none
        else none
      else none
    | _, _ => none)

/-- Date ordering used by `series.sort_index()` (ISO date strings sort
like the datetimes they parse to). -/
def dateLe (a b : String × ℚ) : Prop :=
  charListLt a.1.data b.1.data = true ∨ a.1 = b.1

instance : DecidableRel dateLe := fun a b =>
  inferInstanceAs (Decidable (charListLt a.1.data b.1.data = true ∨ a.1 = b.1))

/-- `series.sort_index()` (line 185). -/
def sortByDate (l : List (String × ℚ)) : List (String × ℚ) :=
  List.insertionSort dateLe l

/-- `_fetch_single_series` (fetch_data.py lines 123-207) against the
environment: `(series, series_id, error)` (the country/variant echo of
the source tuple is kept by the caller). -/
def fetch_single_series (env : FetchEnv) (country variant : String)
    (_start_date _end_date : Option String) (_cache_ttl : Int) :
    Option Series × Option String × Option ErrorEntry :=
  match env.get_series_id country variant with
  | none => (none, none, none)
  | some sid =>
    match env.net sid with
    | .fredError msg => (none, some sid, some (.fetchErr sid country variant msg))
    | .exn msg => (none, some sid, some (.fetchErr sid country variant msg))
    | .payload observations =>
      if observations.isEmpty then (none, some sid, none)
      else
        let pairs := parseObs env observations
        if pairs.isEmpty then (none, some sid, none)
        else (some (sortByDate pairs), some sid, none)

/-- Step 2's result folding (lines 234-254), in submission order (the
`as_completed` order only permutes the metadata lists). -/
def step2 (env : FetchEnv) (start_date end_date : Option String) (cache_ttl : Int) :
    List (String × (String × String)) → DataMap → FetchMetadata →
      DataMap × FetchMetadata
  | [], data, md => (data, md)
  | (_, (country, variant)) :: rest, data, md =>
    let r := fetch_single_series env country variant start_date end_date cache_ttl
    match r.2.2 with
    | some e =>
      step2 env start_date end_date cache_ttl rest data
        { md with errors := md.errors ++ [e] }
    | none =>
      match r.1, r.2.1 with
      | some series, some sid =>
        step2 env start_date end_date cache_ttl rest
          (dataInsert data country variant series)
          { md with
              fetched_series := md.fetched_series ++ [sid]
              source_series :=
                alUpdate md.source_series (country ++ "/" ++ variant) sid }
      | _, some _ =>
        step2 env start_date end_date cache_ttl rest data
          { md with missing_series := md.missing_series ++ [country ++ "/" ++ variant] }
      | _, none => step2 env start_date end_date cache_ttl rest data md

/-- Bounded-fuel replace-all over character lists (`str.replace`); the
fuel is the string length, which one step of either branch always
consumes, so it never runs out. -/
def replaceChars (pat rep : List Char) : Nat → List Char → List Char
  | _, [] => []
  | 0, s => s
  | fuel + 1, c :: rest =>
    if pat ≠ [] ∧ pat.isPrefixOf (c :: rest) then
      rep ++ replaceChars pat rep fuel ((c :: rest).drop pat.length)
    else c :: replaceChars pat rep fuel rest

/-- Python `s.replace(pat, rep)` (for the non-empty patterns the layer
uses). -/
def pyReplace (s pat rep : String) : String :=
  String.mk (replaceChars pat.data rep.data s.data.length s.data)

/-- `pct_change() * 100` followed by `dropna()` (lines 267-274).  In
exact arithmetic no NaN arises; a zero previous value yields pandas
`inf`, which `dropna` keeps — modelled by total `ℚ` division. -/
def pct_change_x100 (l : Series) : Series :=
  match l with
  | [] => []
  | _ :: t => (List.zip l t).map (fun pc => (pc.2.1, (pc.2.2 / pc.1.2 - 1) * 100))

/-- `(gdp * 1e9) / population` on the date intersection (lines
283-299). -/
def per_capita_series (gdp pop : Series) : Series :=
  gdp.filterMap (fun dv =>
    match alLookup pop dv.1 with
    | some pv => some (dv.1, dv.2 * 1000000000 / pv)
    | none => none)

/-- The per-country computation body of step 3 (lines 260-316).  The
model's computations are total, so the `except` branch appending a
computation `ErrorEntry` is unreachable here. -/
def computeVariant (data : DataMap) (country variant : String) : DataMap :=
  let cmap := (alLookup data country).getD []
  if (alLookup cmap variant).isSome then data
  else if variant = "growth_rate" then
    match alLookup cmap "constant_2010" with
    | some gdp => dataInsert data country "growth_rate" (pct_change_x100 gdp)
    | none => data
  else if ("per_capita_".data).isPrefixOf variant.data then
    let base := pyReplace variant "per_capita_" ""
    match alLookup cmap base, alLookup cmap "population" with
    | some gdp, some pop =>
      if (gdp.filter (fun dv => (alLookup pop dv.1).isSome)).isEmpty then data
      else dataInsert data country variant (per_capita_series gdp pop)
    | _, _ => data
  else data

/-- The inner country loop of step 3. -/
def step3Country (variant : String) : List String → DataMap → DataMap
  | [], data => data
  | c :: cs, data => step3Country variant cs (computeVariant data c variant)

/-- Step 3: compute derived variants (lines 256-316). -/
def step3 (countries : List String) :
    List (String × List String) → DataMap → FetchMetadata →
      DataMap × FetchMetadata
  | [], data, md => (data, md)
  | (variant, _) :: rest, data, md =>
    step3 countries rest (step3Country variant countries data)
      { md with computed_variants := md.computed_variants ++ [variant] }

/-- `fetch_gdp_data` (fetch_data.py lines 33-322).  `cache_ttl` defaults
to 86400; `max_workers = min(10, len(series_to_fetch))`, and
`ThreadPoolExecutor` raises `ValueError` when that is zero — the
`Except.error` branch. -/
def fetch_gdp_data (env : FetchEnv) (countries variants : List String)
    (start_date end_date : Option String) (cache_ttl : Option Int) :
    Except String FetchResult :=
  let ttl := cache_ttl.getD 86400
  let data0 : DataMap := countries.map (fun c => (c, []))
  let md0 : FetchMetadata := ⟨[], [], [], [], []⟩
  let s1 := step1 env countries variants
  let md1 : FetchMetadata := { md0 with missing_series := s1.miss }
  let max_workers := min 10 s1.stf.length
  if max_workers = 0 then Except.error "max_workers must be greater than 0"
  else
    let r2 := step2 env start_date end_date ttl s1.stf data0 md1
    let r3 := step3 countries s1.cv r2.1 r2.2
    Except.ok ⟨r3.1, r3.2⟩

/-- The environment of an unknown country: `GDP_MAPPINGS.get(country,
{}).get(variant)` is `None` for every variant. -/
def envUnknown : FetchEnv :=
  ⟨fun _ _ => none, fun _ => .payload [], fun _ => true, fun _ => none⟩

/-- The K=3 scenario environment: `usa`/`italy` resolve and fetch one
observation; `canada` resolves to a series id the upstream rejects
(`FredAPIError`). -/
def envOneInvalid : FetchEnv :=
  ⟨fun c v =>
      if v = "nominal_usd" then
        if c = "usa" then some "GDPA"
        else if c = "canada" then some "MKTGDPCAA646NWDB"
        else if c = "italy" then some "MKTGDPITA646NWDB"
        else none
      else none,
    fun sid =>
      if sid = "MKTGDPCAA646NWDB" then .fredError "Bad Request"
      else .payload [⟨some "2020-01-01", some "1"⟩],
    fun _ => true,
    fun _ => some 1⟩

/-- Claim C2, evaluated at the failing input: a batch in which no key
resolves to a remote series id records the missing key in step 1 but
then **raises** out of the batch call (`ThreadPoolExecutor(max_workers
= min(10, 0))` raises `ValueError`) instead of returning a
`FetchResult`; on a batch of `K = 3` with exactly one invalid remote
identifier the orchestrator does return a result with
`len(errors) + len(missing) = 1` and `K - 1` fetched series. -/
theorem fetch_gdp_data_zero_workers :
    fetch_gdp_data envUnknown ["atlantis"] ["nominal_usd"] none none none
      = Except.error "max_workers must be greater than 0"
    ∧ (step1 envUnknown ["atlantis"] ["nominal_usd"]).miss = ["atlantis/nominal_usd"]
    ∧ ((fetch_gdp_data envOneInvalid ["usa", "canada", "italy"] ["nominal_usd"]
          none none none).map
        (fun r =>
          (r.metadata.errors,
            r.metadata.missing_series,
            r.metadata.fetched_series.length)))
      = Except.ok
          ([ErrorEntry.fetchErr "MKTGDPCAA646NWDB" "canada" "nominal_usd" "Bad Request"],
            ([] : List String), 2) := by
  refine ⟨?_, ?_, ?_⟩
  · decide
  · decide
  · decide

end TrabajoIA
